import Mathlib

/-!
Verification of the extraction / validation / deduplication / ordering
pipeline of `i18n/xliff_to_json.py` (Blockly xliff-to-JSON converter).

The Python source is shallowly embedded below:
an XML DOM node becomes the inductive `XNode`;
a parsed translation-unit dictionary becomes `Record`
(an association list with overwrite-on-assignment, mirroring a Python dict);
each `raise InputError(context, message)` site becomes an
`Except.error` carrying the context and message strings built exactly as in
the source, tagged with an `ErrKind` naming the raise site;
an uncaught Python `AttributeError` (attribute access on an object lacking
the attribute) is the separate error value `PyErr.attributeError`.
-/

/-- Whitespace class of a Python 2 byte-string regex (the class written
backslash-s): space, tab, newline, carriage return, vertical tab, form feed. -/
def isPyWs (c : Char) : Bool :=
  c = ' ' || c = '\t' || c = '\n' || c = '\x0d' || c = '\x0b' || c = '\x0c'

/-- Character-data escaping performed by minidom when serializing text and
attribute values (its helper replaces the four characters ampersand,
less-than, double quote, greater-than by their entities). -/
def escapeData (s : String) : String :=
  String.join (s.data.map (fun c =>
    if c = '&' then "&amp;"
    else if c = '<' then "&lt;"
    else if c = '"' then "&quot;"
    else if c = '>' then "&gt;"
    else String.singleton c))

/-- An XML DOM node as exposed by minidom to the converter: an element with a
tag name, attributes and child nodes, or a text node with character data. -/
inductive XNode where
  | elem (tag : String) (attrs : List (String × String)) (children : List XNode)
  | text (data : String)
deriving Repr

/-- Child-node list of a node (text nodes have none). -/
def childNodes : XNode → List XNode
  | .elem _ _ cs => cs
  | .text _ => []

/-- Attribute lookup; minidom getAttribute returns the empty string when the
attribute is absent. -/
def attrOf (n : XNode) (name : String) : String :=
  match n with
  | .elem _ attrs _ => (attrs.lookup name).getD ""
  | .text _ => ""

/-- Whether the node is an element whose tag equals `tag`. -/
def isElemTag (tag : String) : XNode → Bool
  | .elem t _ _ => t = tag
  | .text _ => false

mutual

/-- minidom getElementsByTagName: all descendant elements with the given tag,
in document (preorder) order, not including the node itself. -/
def getElementsByTagName (tag : String) : XNode → List XNode
  | .text _ => []
  | .elem _ _ cs => getEltsList tag cs

/-- Helper of `getElementsByTagName` over a child list: a matching child is
listed before its own matching descendants. -/
def getEltsList (tag : String) : List XNode → List XNode
  | [] => []
  | c :: cs =>
      (if isElemTag tag c then [c] else []) ++ getElementsByTagName tag c ++ getEltsList tag cs

end

mutual

/-- minidom toxml serialization of a node: elements are rendered with their
attributes (values escaped), self-closing when childless; text data is
escaped.  Embedded markup thus stays literal text in the output string. -/
def toxml : XNode → String
  | .text d => escapeData d
  | .elem tag attrs cs =>
      "<" ++ tag
          ++ String.join (attrs.map (fun a => " " ++ a.1 ++ "=\"" ++ escapeData a.2 ++ "\""))
          ++ (if cs.isEmpty then "/>" else ">" ++ toxmlList cs ++ "</" ++ tag ++ ">")

/-- Concatenation of the serializations of a list of nodes (the join over a
child-node list performed by get_value in the source). -/
def toxmlList : List XNode → String
  | [] => ""
  | c :: cs => toxml c ++ toxmlList cs

end

/-- The seven distinct InputError raise sites of the source, named as in the
specification. -/
inductive ErrKind where
  | missingKey
  | ambiguousField
  | malformedNote
  | requiredFieldMissing
  | danglingIbid
  | duplicateMeaning
  | undefinedMeaning
deriving DecidableEq, Repr

/-- A failure outcome of the Python program: a raised InputError carrying its
(context, message) pair and tagged with the raise site, or an uncaught
AttributeError (attribute access on an object without that attribute). -/
inductive PyErr where
  | inputError (kind : ErrKind) (context : String) (msg : String)
  | attributeError
deriving DecidableEq, Repr

deriving instance DecidableEq for Except

/-- Lower-casing of one byte by the Python 2 str lower method in the default
locale: the letters A through Z map to their lower-case forms, all other
bytes are unchanged. -/
def pyLowerChar (c : Char) : Char :=
  if 'A' ≤ c ∧ c ≤ 'Z' then Char.ofNat (c.toNat + 32) else c

/-- The Python 2 str lower method, applied byte by byte. -/
def pyLower (s : String) : String := String.mk (s.data.map pyLowerChar)

/-- The dictionary built for one translation unit.  Values are optional
because get_value stores None for an absent source or target. -/
abbrev Record := List (String × Option String)

/-- Python dict assignment: overwrite the value when the key is present,
otherwise add the binding. -/
def setField : Record → String → Option String → Record
  | [], k, v => [(k, v)]
  | (k', v') :: r, k, v =>
      if k' = k then (k, v) :: r else (k', v') :: setField r k v

/-- Python dict lookup collapsed over presence: the stored value when the key
is bound to a string, and none when the key is absent or bound to None. -/
def fieldVal (r : Record) (k : String) : Option String :=
  match r.lookup k with
  | some (some s) => some s
  | _ => none

/-- The string read at a key, with the empty string for absent or None
(used where the source reads a value it has already checked). -/
def fieldStr (r : Record) (k : String) : String :=
  (fieldVal r k).getD ""

/-- Python truthiness of the expression testing that a key is present and its
value non-falsy: the key is bound to a non-empty string. -/
def truthyField (r : Record) (k : String) : Bool :=
  match fieldVal r k with
  | some s => !(s = "")
  | none => false

/-- Embedding of get_value inside _parse_trans_unit: zero matching elements
yield None, exactly one yields the concatenated serialized XML of its child
nodes, more than one raises InputError (the AmbiguousFieldError site, context
filled in later by the caller). -/
def get_value (tu : XNode) (tag : String) : Except PyErr (Option String) :=
  match getElementsByTagName tag tu with
  | [] => .ok none
  | [e] => .ok (some (toxmlList (childNodes e)))
  | _ => .error (.inputError .ambiguousField "" ("Unable to extract " ++ tag))

/-- The re-raise in _parse_trans_unit: a caught InputError is re-raised with
the unit key as context and the same message. -/
def reContext (key : String) : PyErr → PyErr
  | .inputError kind _ msg => .inputError kind key msg
  | e => e

/-- The note loop of _parse_trans_unit: each note with a truthy from
attribute and exactly one child node stores that child's character data under
the from value (overwriting any previous binding); otherwise InputError is
raised (the MalformedNoteError site).  When the single child is not a text
node, the attribute access .data on it raises an uncaught AttributeError. -/
def addNotes (key : String) (r : Record) : List XNode → Except PyErr Record
  | [] => .ok r
  | note :: rest =>
      let fromValue := attrOf note "from"
      if fromValue ≠ "" ∧ (childNodes note).length = 1 then
        match childNodes note with
        | (.text d) :: _ => addNotes key (setField r fromValue (some d)) rest
        | _ => .error .attributeError
      else
        .error (.inputError .malformedNote key ("Unable to extract " ++ fromValue))

/-- Embedding of _parse_trans_unit: read the id attribute as key (raising the
MissingKeyError site when it is empty), store source and target from
get_value (re-raising with the key as context), then fold the notes in. -/
def parse_trans_unit (tu : XNode) : Except PyErr Record :=
  let key := attrOf tu "id"
  if key = "" then
    .error (.inputError .missingKey "" "id attribute not found")
  else
    match get_value tu "source" with
    | .error e => .error (reContext key e)
    | .ok src =>
      match get_value tu "target" with
      | .error e => .error (reContext key e)
      | .ok tgt =>
          addNotes key (setField (setField [("key", some key)] "source" src) "target" tgt)
            (getElementsByTagName "note" tu)

/-- The multi-line message built at the DanglingIbidError raise site of
_process_file, concatenated exactly as in the source. -/
def ibidMsg (meaning description : String) : String :=
  "First encountered definition of: " ++ meaning
    ++ " has definition: " ++ description
    ++ ".  This error can occur if the definition was not"
    ++ " provided on the first appearance of the message"
    ++ " or if the source (English-language) messages differ."

/-- The required-field loop of _process_file over the keys description,
meaning, source: the first key that is absent or empty raises InputError
(the RequiredFieldMissingError site) whose context joins the filename and the
unit key with a colon. -/
def requiredCheck (filename : String) (u : Record) : Except PyErr Unit :=
  if !truthyField u "description" then
    .error (.inputError .requiredFieldMissing (filename ++ ":" ++ fieldStr u "key")
      "description not found")
  else if !truthyField u "meaning" then
    .error (.inputError .requiredFieldMissing (filename ++ ":" ++ fieldStr u "key")
      "meaning not found")
  else if !truthyField u "source" then
    .error (.inputError .requiredFieldMissing (filename ++ ":" ++ fieldStr u "key")
      "source not found")
  else .ok ()

/-- The per-unit loop of _process_file, carrying the output list `results`
and the registry `names` of meanings seen so far: parse the unit, check the
required fields, then either handle the ibid convention (drop or raise the
DanglingIbidError site) or register the meaning and append the unit (raising
the DuplicateMeaningError site on a second non-ibid definition). -/
def processLoop (filename : String) (results : List Record) (names : List String) :
    List XNode → Except PyErr (List Record)
  | [] => .ok results
  | tu :: rest =>
    match parse_trans_unit tu with
    | .error e => .error e
    | .ok unit =>
      match requiredCheck filename unit with
      | .error e => .error e
      | .ok _ =>
        if pyLower (fieldStr unit "description") = "ibid" then
          if fieldStr unit "meaning" ∈ names then
            processLoop filename results names rest
          else
            .error (.inputError .danglingIbid filename
              (ibidMsg (fieldStr unit "meaning") (fieldStr unit "description")))
        else
          if fieldStr unit "meaning" ∈ names then
            .error (.inputError .duplicateMeaning filename
              ("Second definition of: " ++ fieldStr unit "meaning"))
          else
            processLoop filename (results ++ [unit]) (names ++ [fieldStr unit "meaning"]) rest

/-- Embedding of _process_file on an already-parsed document: run the loop
over every trans-unit element with empty output list and registry. -/
def process_file (filename : String) (doc : XNode) : Except PyErr (List Record) :=
  processLoop filename [] [] (getElementsByTagName "trans-unit" doc)

/-- Consume a literal character sequence from the front of a string, giving
the remaining suffix (the way the regex engine consumes the fixed literal
parts of the search pattern of sort_units). -/
def dropLit : List Char → List Char → Option (List Char)
  | [], s => some s
  | _ :: _, [] => none
  | a :: lit, b :: s => if a = b then dropLit lit s else none

/-- The special characters of Python 2 regex syntax.  sort_units builds its
pattern by interpolating the unit meaning into the regex source without
escaping it, so these characters stay active inside the pattern. -/
def pyRegexSpecials : List Char :=
  ['.', '^', '$', '*', '+', '?', '{', '}', '[', ']', '\\', '|', '(', ')']

/-- One compiled element of the interpolated meaning part of the sort_units
pattern: a literal character, or the any-character wildcard compiled from an
unescaped dot. -/
inductive RegexTok where
  | lit (c : Char)
  | dot
deriving DecidableEq, Repr

/-- Compilation of the meaning interpolated unescaped into the pattern: an
ordinary character compiles to a literal matcher and a dot to the wildcard,
each consuming exactly one character, which is the whole of Python regex
semantics for such a pattern.  A meaning containing any other special
character leaves this modeled fragment (the program may then match through
quantifiers, groups and classes, or raise re.error on an invalid pattern),
and compilation abstains with none; no behavior is asserted there. -/
def pyMeaningTokens : List Char → Option (List RegexTok)
  | [] => some []
  | c :: rest =>
      match pyMeaningTokens rest with
      | none => none
      | some ts =>
          if c = '.' then some (.dot :: ts)
          else if c ∈ pyRegexSpecials then none
          else some (.lit c :: ts)

/-- Whether one compiled token matches one character; the wildcard matches
every character except a newline (Python without DOTALL). -/
def tokMatches : RegexTok → Char → Bool
  | .lit a, c => a = c
  | .dot, c => !(c = '\n')

/-- Pointwise match of a compiled token list against a character list of the
same length. -/
def tokensMatch : List RegexTok → List Char → Bool
  | [], [] => true
  | t :: ts, c :: cs => tokMatches t c && tokensMatch ts cs
  | _, _ => false

/-- Consume characters matching the compiled meaning tokens one for one,
giving the remaining suffix. -/
def dropToks : List RegexTok → List Char → Option (List Char)
  | [], s => some s
  | _ :: _, [] => none
  | t :: ts, c :: s => if tokMatches t c then dropToks ts s else none

/-- Consume one expected literal character from the front of a string. -/
def expectChar (c : Char) : List Char → Option (List Char)
  | x :: rest => if x = c then some rest else none
  | [] => none

/-- Consume the body of the sort_units search pattern starting right after
its leading whitespace: the literal word meaning, optional whitespace, an
equals sign, optional whitespace, a quote, the compiled meaning tokens, and
the closing quote; gives the suffix following the closing quote.  Every
piece consumes a determined number of characters (the starred whitespace is
followed by a non-whitespace literal), so the pattern admits no
backtracking and this deterministic scan is the Python regex semantics. -/
def declRest (toks : List RegexTok) (s : List Char) : Option (List Char) :=
  (dropLit "meaning".data s).bind (fun s1 =>
   (expectChar '=' (s1.dropWhile isPyWs)).bind (fun s2 =>
    (expectChar '"' (s2.dropWhile isPyWs)).bind (fun s3 =>
     (dropToks toks s3).bind (fun s4 => expectChar '"' s4))))

/-- Whether the whole sort_units pattern (leading whitespace, declaration
body, trailing whitespace after the closing quote) matches at the front of
the given suffix. -/
def matchMeaningAt (toks : List RegexTok) : List Char → Bool
  | [] => false
  | c :: s =>
      isPyWs c &&
        (match declRest toks s with
         | some (d :: _) => isPyWs d
         | _ => false)

/-- Leftmost-match scan of re.search for the sort_units pattern: the offset
of the first suffix at which the pattern matches. -/
def searchFrom (toks : List RegexTok) : List Char → Option Nat
  | [] => none
  | s@(_ :: rest) =>
      if matchMeaningAt toks s then some 0 else (searchFrom toks rest).map (· + 1)

/-- Embedding of the re.search call of sort_units on a compiled pattern: the
start offset of the leftmost match over the templates string, if any. -/
def reSearchMeaning (templates : String) (toks : List RegexTok) : Option Nat :=
  searchFrom toks templates.data

/-- The key function of sort_units: compile the pattern from the unit
meaning, then answer the match start offset, or InputError (the
UndefinedMeaningError site, context the templates argument) when the pattern
does not occur.  The outer Option is the modeling boundary: none marks a
meaning outside the compiled fragment, where this embedding asserts
nothing about the program. -/
def keyFun (templatesRef templates : String) (u : Record) :
    Option (Except PyErr Nat) :=
  match pyMeaningTokens (fieldStr u "meaning").data with
  | none => none
  | some toks =>
    match reSearchMeaning templates toks with
    | some i => some (.ok i)
    | none =>
        some (.error (.inputError .undefinedMeaning templatesRef
          ("msg definition for meaning not found: " ++ fieldStr u "meaning")))

/-- The decoration pass of the Python sorted builtin: the key function is
evaluated once per unit in list order, failing fast at the first raise (and
abstaining from the first unit whose meaning is outside the modeled
fragment). -/
def decorate (templatesRef templates : String) :
    List Record → Option (Except PyErr (List (Nat × Record)))
  | [] => some (.ok [])
  | u :: rest =>
    match keyFun templatesRef templates u with
    | none => none
    | some (.error e) => some (.error e)
    | some (.ok k) =>
      match decorate templatesRef templates rest with
      | none => none
      | some (.error e) => some (.error e)
      | some (.ok ds) => some (.ok ((k, u) :: ds))

/-- Embedding of sort_units: decorate each unit with its key, then sort
stably ascending by key (the Python sorted builtin) and strip the keys. -/
def sort_units (templatesRef templates : String) (units : List Record) :
    Option (Except PyErr (List Record)) :=
  match decorate templatesRef templates units with
  | none => none
  | some (.error e) => some (.error e)
  | some (.ok ds) => some (.ok ((ds.mergeSort (fun a b => a.1 ≤ b.1)).map Prod.snd))

/-- The three required fields are present and non-empty (the condition under
which the required-field loop of _process_file falls through). -/
abbrev requiredOk (u : Record) : Prop :=
  truthyField u "description" = true ∧ truthyField u "meaning" = true ∧
    truthyField u "source" = true

theorem requiredCheck_eq_ok (filename : String) (u : Record) (h : requiredOk u) :
    requiredCheck filename u = .ok () := by
  obtain ⟨h1, h2, h3⟩ := h
  simp [requiredCheck, h1, h2, h3]

theorem processLoop_meanings_nodup (filename : String) (l : List XNode) :
    ∀ (results : List Record) (names : List String),
      names = results.map (fun u => fieldStr u "meaning") → names.Nodup →
      ∀ out, processLoop filename results names l = .ok out →
        (out.map (fun u => fieldStr u "meaning")).Nodup := by
  induction l with
  | nil =>
      intro results names hn hnd out hout
      simp only [processLoop] at hout
      injection hout with h
      subst h
      rw [← hn]
      exact hnd
  | cons tu rest ih =>
      intro results names hn hnd out hout
      cases hpu : parse_trans_unit tu with
      | error e => simp [processLoop, hpu] at hout
      | ok u =>
        cases hrc : requiredCheck filename u with
        | error e => simp [processLoop, hpu, hrc] at hout
        | ok uu =>
          by_cases hibid : pyLower (fieldStr u "description") = "ibid"
          · by_cases hmem : fieldStr u "meaning" ∈ names
            · simp only [processLoop, hpu, hrc, if_pos hibid, if_pos hmem] at hout
              exact ih results names hn hnd out hout
            · simp [processLoop, hpu, hrc, hibid, hmem] at hout
          · by_cases hmem : fieldStr u "meaning" ∈ names
            · simp [processLoop, hpu, hrc, hibid, hmem] at hout
            · simp only [processLoop, hpu, hrc, if_neg hibid, if_neg hmem] at hout
              refine ih (results ++ [u]) (names ++ [fieldStr u "meaning"]) ?_ ?_ out hout
              · rw [hn, List.map_append]
                rfl
              · simp only [List.nodup_append, List.nodup_cons, List.not_mem_nil,
                  not_false_iff, List.nodup_nil, and_true, true_and]
                refine ⟨hnd, ?_⟩
                intro a ha
                simp only [List.mem_singleton]
                intro heq
                exact hmem (heq ▸ ha)

/-- C1.  For every input document, validation enforces global uniqueness of
meanings: the meanings of a successfully validated output list are pairwise
distinct (each appears exactly once), and a unit whose description is not
ibid (case-insensitively) but whose meaning is already in the registry makes
processing fail at the DuplicateMeaningError raise site. -/
theorem c1_meaning_uniqueness :
    (∀ (filename : String) (doc : XNode) (out : List Record),
        process_file filename doc = .ok out →
        (out.map (fun u => fieldStr u "meaning")).Nodup)
    ∧ (∀ (filename : String) (results : List Record) (names : List String)
         (tu : XNode) (rest : List XNode) (u : Record),
        parse_trans_unit tu = .ok u → requiredOk u →
        pyLower (fieldStr u "description") ≠ "ibid" →
        fieldStr u "meaning" ∈ names →
        processLoop filename results names (tu :: rest) =
          .error (.inputError .duplicateMeaning filename
            ("Second definition of: " ++ fieldStr u "meaning"))) := by
  constructor
  · intro filename doc out hout
    exact processLoop_meanings_nodup filename (getElementsByTagName "trans-unit" doc)
      [] [] rfl List.nodup_nil out hout
  · intro filename results names tu rest u hpu hreq hibid hmem
    simp only [processLoop, hpu, requiredCheck_eq_ok filename u hreq,
      if_neg hibid, if_pos hmem]

/-- A source child element holding the given text. -/
def srcElem (s : String) : XNode := .elem "source" [] [.text s]

/-- A note child element with the given from attribute and text. -/
def noteElem (k v : String) : XNode := .elem "note" [("from", k)] [.text v]

/-- A well-formed trans-unit element with id, description note, meaning note
and source text. -/
def mkUnit (id desc meaning src : String) : XNode :=
  .elem "trans-unit" [("id", id)]
    [srcElem src, noteElem "description" desc, noteElem "meaning" meaning]

/-- Example document: unit A defines greet, unit B repeats it with an ibid
description, unit C defines farewell. -/
def docEx : XNode :=
  .elem "xliff" []
    [mkUnit "k1" "Says hello" "greet" "hello",
     mkUnit "k2" "ibid" "greet" "hello",
     mkUnit "k3" "Says goodbye" "farewell" "bye"]

/-- The record extracted from unit A of the example document. -/
def recEx1 : Record :=
  [("key", some "k1"), ("source", some "hello"), ("target", none),
   ("description", some "Says hello"), ("meaning", some "greet")]

/-- The record extracted from unit B of the example document. -/
def recEx2 : Record :=
  [("key", some "k2"), ("source", some "hello"), ("target", none),
   ("description", some "ibid"), ("meaning", some "greet")]

/-- The record extracted from unit C of the example document. -/
def recEx3 : Record :=
  [("key", some "k3"), ("source", some "bye"), ("target", none),
   ("description", some "Says goodbye"), ("meaning", some "farewell")]

/-- The record extracted from a fourth unit giving greet a second non-ibid
definition. -/
def recEx4 : Record :=
  [("key", some "k4"), ("source", some "x"), ("target", none),
   ("description", some "Other"), ("meaning", some "greet")]

theorem c1_meaning_uniqueness_witness :
    (process_file "f.xlf" docEx = .ok [recEx1, recEx3] ∧
      (([recEx1, recEx3].map (fun u => fieldStr u "meaning")).Nodup)) ∧
    processLoop "f.xlf" [] ["greet"] [mkUnit "k4" "Other" "greet" "x"] =
      .error (.inputError .duplicateMeaning "f.xlf" "Second definition of: greet") :=
  ⟨⟨by decide, c1_meaning_uniqueness.1 "f.xlf" docEx [recEx1, recEx3] (by decide)⟩,
    c1_meaning_uniqueness.2 "f.xlf" [] ["greet"] (mkUnit "k4" "Other" "greet" "x") [] recEx4
      (by decide) (by decide) (by decide) (by decide)⟩

/-- C2.  A unit whose description lower-cases to ibid and whose meaning is
already in the registry is silently dropped: processing the document tail
starting at that unit equals processing the tail without it, with the output
list and the registry unchanged (so every other unit keeps its presence and
relative order). -/
theorem c2_ibid_duplicate_dropped (filename : String) (results : List Record)
    (names : List String) (tu : XNode) (rest : List XNode) (u : Record)
    (hpu : parse_trans_unit tu = .ok u) (hreq : requiredOk u)
    (hibid : pyLower (fieldStr u "description") = "ibid")
    (hmem : fieldStr u "meaning" ∈ names) :
    processLoop filename results names (tu :: rest) =
      processLoop filename results names rest := by
  simp only [processLoop, hpu, requiredCheck_eq_ok filename u hreq,
    if_pos hibid, if_pos hmem]

theorem c2_ibid_duplicate_dropped_witness :
    pyLower (fieldStr recEx2 "description") = "ibid" ∧
    fieldStr recEx2 "meaning" ∈ ["greet"] ∧
    processLoop "f.xlf" [recEx1] ["greet"] [mkUnit "k2" "ibid" "greet" "hello"] =
      processLoop "f.xlf" [recEx1] ["greet"] [] :=
  ⟨by decide, by decide,
    c2_ibid_duplicate_dropped "f.xlf" [recEx1] ["greet"]
      (mkUnit "k2" "ibid" "greet" "hello") [] recEx2
      (by decide) (by decide) (by decide) (by decide)⟩

/-- C3.  A unit whose description lower-cases to ibid but whose meaning is
not yet in the registry makes the whole run fail at the DanglingIbidError
raise site, whatever the position (output list, registry and tail are
arbitrary). -/
theorem c3_dangling_ibid_error (filename : String) (results : List Record)
    (names : List String) (tu : XNode) (rest : List XNode) (u : Record)
    (hpu : parse_trans_unit tu = .ok u) (hreq : requiredOk u)
    (hibid : pyLower (fieldStr u "description") = "ibid")
    (hmem : fieldStr u "meaning" ∉ names) :
    processLoop filename results names (tu :: rest) =
      .error (.inputError .danglingIbid filename
        (ibidMsg (fieldStr u "meaning") (fieldStr u "description"))) := by
  simp only [processLoop, hpu, requiredCheck_eq_ok filename u hreq,
    if_pos hibid, if_neg hmem]

theorem c3_dangling_ibid_error_witness :
    pyLower (fieldStr recEx2 "description") = "ibid" ∧
    fieldStr recEx2 "meaning" ∉ ([] : List String) ∧
    processLoop "f.xlf" [] [] [mkUnit "k2" "ibid" "greet" "hello"] =
      .error (.inputError .danglingIbid "f.xlf" (ibidMsg "greet" "ibid")) :=
  ⟨by decide, by decide,
    c3_dangling_ibid_error "f.xlf" [] [] (mkUnit "k2" "ibid" "greet" "hello") [] recEx2
      (by decide) (by decide) (by decide) (by decide)⟩

/-- C6.  A unit in which description, meaning or source is absent or empty
makes processing fail at the RequiredFieldMissingError raise site, with a
context joining the document filename and the unit key; the check comes
before the ibid handling, so it applies to ibid units as well. -/
theorem c6_required_fields (filename : String) (results : List Record)
    (names : List String) (tu : XNode) (rest : List XNode) (u : Record)
    (hpu : parse_trans_unit tu = .ok u)
    (hmiss : ¬ requiredOk u) :
    ∃ k, k ∈ (["description", "meaning", "source"] : List String) ∧
      processLoop filename results names (tu :: rest) =
        .error (.inputError .requiredFieldMissing (filename ++ ":" ++ fieldStr u "key")
          (k ++ " not found")) := by
  by_cases h1 : truthyField u "description" = true
  · by_cases h2 : truthyField u "meaning" = true
    · by_cases h3 : truthyField u "source" = true
      · exact absurd ⟨h1, h2, h3⟩ hmiss
      · refine ⟨"source", by simp, ?_⟩
        have hrc : requiredCheck filename u =
            .error (.inputError .requiredFieldMissing
              (filename ++ ":" ++ fieldStr u "key") ("source" ++ " not found")) := by
          simp [requiredCheck, h1, h2, h3]
        simp only [processLoop, hpu, hrc]
    · refine ⟨"meaning", by simp, ?_⟩
      have hrc : requiredCheck filename u =
          .error (.inputError .requiredFieldMissing
            (filename ++ ":" ++ fieldStr u "key") ("meaning" ++ " not found")) := by
        simp [requiredCheck, h1, h2]
      simp only [processLoop, hpu, hrc]
  · refine ⟨"description", by simp, ?_⟩
    have hrc : requiredCheck filename u =
        .error (.inputError .requiredFieldMissing
          (filename ++ ":" ++ fieldStr u "key") ("description" ++ " not found")) := by
      simp [requiredCheck, h1]
    simp only [processLoop, hpu, hrc]

/-- A unit with an id, a source and an ibid description but no meaning note. -/
def unitNoMeaning : XNode :=
  .elem "trans-unit" [("id", "k9")] [srcElem "x", noteElem "description" "ibid"]

/-- The record extracted from unitNoMeaning. -/
def recNoMeaning : Record :=
  [("key", some "k9"), ("source", some "x"), ("target", none),
   ("description", some "ibid")]

theorem c6_required_fields_witness :
    ¬ requiredOk recNoMeaning ∧
    ∃ k, k ∈ (["description", "meaning", "source"] : List String) ∧
      processLoop "f.xlf" [] [] [unitNoMeaning] =
        .error (.inputError .requiredFieldMissing ("f.xlf" ++ ":" ++ fieldStr recNoMeaning "key")
          (k ++ " not found")) :=
  ⟨by decide,
    c6_required_fields "f.xlf" [] [] unitNoMeaning [] recNoMeaning (by decide) (by decide)⟩

/-- C7.  For a trans-unit node and a tag among source and target: zero
matching elements give an absent field (no error), exactly one gives the
concatenated serialized XML of its child nodes, more than one raises at the
AmbiguousFieldError site; through _parse_trans_unit the error is re-raised
with the unit key as context. -/
theorem c7_source_target_trichotomy (tu : XNode) (tag : String)
    (_htag : tag = "source" ∨ tag = "target") :
    ((getElementsByTagName tag tu).length = 0 → get_value tu tag = .ok none)
    ∧ (∀ e, getElementsByTagName tag tu = [e] →
        get_value tu tag = .ok (some (toxmlList (childNodes e))))
    ∧ ((getElementsByTagName tag tu).length > 1 →
        get_value tu tag =
          .error (.inputError .ambiguousField "" ("Unable to extract " ++ tag)))
    ∧ ((getElementsByTagName "source" tu).length > 1 → attrOf tu "id" ≠ "" →
        parse_trans_unit tu =
          .error (.inputError .ambiguousField (attrOf tu "id") "Unable to extract source")) := by
  have trich : ∀ (t' : String), (getElementsByTagName t' tu).length > 1 →
      get_value tu t' =
        .error (.inputError .ambiguousField "" ("Unable to extract " ++ t')) := by
    intro t' h2
    cases hl : getElementsByTagName t' tu with
    | nil => rw [hl] at h2; simp at h2
    | cons e1 tl =>
      cases tl with
      | nil => rw [hl] at h2; simp at h2
      | cons e2 tl2 => simp [get_value, hl]
  refine ⟨?_, ?_, trich tag, ?_⟩
  · intro h0
    have hl : getElementsByTagName tag tu = [] := List.length_eq_zero.mp h0
    simp [get_value, hl]
  · intro e he
    simp [get_value, he]
  · intro h2 hid
    have hsv := trich "source" h2
    simp only [parse_trans_unit, if_neg hid, hsv]
    rfl

/-- A trans-unit with two source elements. -/
def dupSrcUnit : XNode :=
  .elem "trans-unit" [("id", "kd")]
    [srcElem "a", srcElem "b", noteElem "description" "d", noteElem "meaning" "m"]

theorem c7_source_target_trichotomy_witness :
    ("source" = "source" ∨ "source" = "target") ∧
    get_value dupSrcUnit "source" =
      .error (.inputError .ambiguousField "" "Unable to extract source") ∧
    parse_trans_unit dupSrcUnit =
      .error (.inputError .ambiguousField "kd" "Unable to extract source") := by
  refine ⟨Or.inl rfl, ?_, ?_⟩
  · exact (c7_source_target_trichotomy dupSrcUnit "source" (Or.inl rfl)).2.2.1 (by decide)
  · exact (c7_source_target_trichotomy dupSrcUnit "source" (Or.inl rfl)).2.2.2
      (by decide) (by decide)

/-- A trans-unit with source and target elements and notes whose from values
collide with the key, source and target fields (the source one twice). -/
def c9unit (k s t nk ns nt ns2 : String) : XNode :=
  .elem "trans-unit" [("id", k)]
    [.elem "source" [] [.text s],
     .elem "target" [] [.text t],
     noteElem "key" nk, noteElem "source" ns, noteElem "target" nt, noteElem "source" ns2]

/-- C9.  All fields live in one flat dictionary, so a note whose from value
is key, source or target silently overwrites the previously extracted value
of that field, and a later note with the same from value overwrites an
earlier one; no error is raised. -/
theorem c9_notes_overwrite_fields (k s t nk ns nt ns2 : String) (hk : k ≠ "") :
    parse_trans_unit (c9unit k s t nk ns nt ns2) =
      .ok [("key", some nk), ("source", some ns2), ("target", some nt)] := by
  have ha : attrOf (c9unit k s t nk ns nt ns2) "id" = k := rfl
  simp only [parse_trans_unit, ha, if_neg hk]
  rfl

theorem c9_notes_overwrite_fields_witness :
    "k" ≠ "" ∧
    parse_trans_unit (c9unit "k" "S" "T" "NK" "NS" "NT" "NS2") =
      .ok [("key", some "NK"), ("source", some "NS2"), ("target", some "NT")] :=
  ⟨by decide, c9_notes_overwrite_fields "k" "S" "T" "NK" "NS" "NT" "NS2" (by decide)⟩

/-- A trans-unit whose note has a non-empty from attribute and exactly one
child that is an element rather than a text node. -/
def badNoteUnit : XNode :=
  .elem "trans-unit" [("id", "k8")]
    [srcElem "s", .elem "note" [("from", "x")] [.elem "b" [] []]]

/-- C8 counterexample.  On a note whose single child is an element, the code
reads the data attribute of a non-text node and dies with an uncaught
AttributeError; it does not raise at the MalformedNoteError site as the
claim states for a note without exactly one text child. -/
theorem c8_counterexample :
    parse_trans_unit badNoteUnit = .error PyErr.attributeError ∧
    PyErr.attributeError ≠
      PyErr.inputError .malformedNote "k8" "Unable to extract x" :=
  ⟨by decide, by decide⟩

/-- C8 amended.  The note loop raises at the MalformedNoteError site exactly
when the from attribute is empty or the note does not have exactly one child
node (of any kind); when the single child is a text node its data is stored
under the from value; when the single child is not a text node the code
fails with an uncaught AttributeError instead of a MalformedNoteError. -/
theorem c8_note_extraction (key : String) (r : Record) (note : XNode)
    (rest : List XNode) :
    ((attrOf note "from" = "" ∨ (childNodes note).length ≠ 1) →
      addNotes key r (note :: rest) =
        .error (.inputError .malformedNote key
          ("Unable to extract " ++ attrOf note "from")))
    ∧ (∀ d, attrOf note "from" ≠ "" → childNodes note = [XNode.text d] →
      addNotes key r (note :: rest) =
        addNotes key (setField r (attrOf note "from") (some d)) rest)
    ∧ (∀ tg ats cs, attrOf note "from" ≠ "" → childNodes note = [XNode.elem tg ats cs] →
      addNotes key r (note :: rest) = .error .attributeError) := by
  refine ⟨?_, ?_, ?_⟩
  · intro h
    have hcond : ¬(attrOf note "from" ≠ "" ∧ (childNodes note).length = 1) := by
      rcases h with h | h
      · intro hc; exact hc.1 h
      · intro hc; exact h hc.2
    simp only [addNotes, if_neg hcond]
  · intro d hfv hcn
    have hcond : attrOf note "from" ≠ "" ∧ (childNodes note).length = 1 :=
      ⟨hfv, by rw [hcn]; rfl⟩
    simp only [addNotes, hcn]
    rw [if_pos ⟨hfv, rfl⟩]
  · intro tg ats cs hfv hcn
    have hcond : attrOf note "from" ≠ "" ∧ (childNodes note).length = 1 :=
      ⟨hfv, by rw [hcn]; rfl⟩
    simp only [addNotes, hcn]
    rw [if_pos ⟨hfv, rfl⟩]

theorem c8_note_extraction_witness :
    (attrOf (noteElem "" "v") "from" = "" ∧
      addNotes "kw" [] [noteElem "" "v"] =
        .error (.inputError .malformedNote "kw" "Unable to extract ")) ∧
    (addNotes "kw" [] [noteElem "x" "v"] =
      addNotes "kw" (setField [] "x" (some "v")) []) ∧
    (addNotes "kw" [] [.elem "note" [("from", "x")] [.elem "b" [] []]] =
      .error .attributeError) := by
  refine ⟨⟨by decide, ?_⟩, ?_, ?_⟩
  · exact (c8_note_extraction "kw" [] (noteElem "" "v") []).1 (Or.inl (by decide))
  · exact (c8_note_extraction "kw" [] (noteElem "x" "v") []).2.1 "v" (by decide) rfl
  · exact (c8_note_extraction "kw" [] (.elem "note" [("from", "x")] [.elem "b" [] []]) []).2.2
      "b" [] [] (by decide) rfl

theorem dropLit_eq_some (lit : List Char) :
    ∀ (s r : List Char), dropLit lit s = some r ↔ s = lit ++ r := by
  induction lit with
  | nil =>
      intro s r
      simp [dropLit]
  | cons a lit ih =>
      intro s r
      cases s with
      | nil => simp [dropLit]
      | cons b s =>
        by_cases hab : a = b
        · subst hab
          simp [dropLit, ih]
        · simp only [dropLit, if_neg hab, List.cons_append, List.cons.injEq]
          constructor
          · intro h; cases h
          · intro h; exact absurd h.1.symm hab

theorem expectChar_eq_some (c : Char) :
    ∀ (s r : List Char), expectChar c s = some r ↔ s = c :: r := by
  intro s r
  cases s with
  | nil => simp [expectChar]
  | cons x rest =>
    by_cases hx : x = c
    · subst hx
      simp [expectChar]
    · simp only [expectChar, if_neg hx, List.cons.injEq]
      constructor
      · intro h; cases h
      · intro h; exact absurd h.1 hx

theorem dropToks_eq_some (toks : List RegexTok) :
    ∀ (s r : List Char), dropToks toks s = some r ↔
      ∃ mm, tokensMatch toks mm = true ∧ s = mm ++ r := by
  induction toks with
  | nil =>
      intro s r
      constructor
      · intro h
        simp only [dropToks, Option.some.injEq] at h
        exact ⟨[], rfl, by rw [h]; rfl⟩
      · intro ⟨mm, hmm, hs⟩
        cases mm with
        | nil =>
            simp only [dropToks, Option.some.injEq]
            simpa using hs
        | cons c cs => simp [tokensMatch] at hmm
  | cons t ts ih =>
      intro s r
      cases s with
      | nil =>
          simp only [dropToks]
          constructor
          · intro h; cases h
          · intro ⟨mm, hmm, hs⟩
            cases mm with
            | nil => simp [tokensMatch] at hmm
            | cons c cs => cases hs
      | cons b s' =>
          by_cases htm : tokMatches t b = true
          · simp only [dropToks, if_pos htm]
            rw [ih s' r]
            constructor
            · intro ⟨mm, hmm, hs⟩
              refine ⟨b :: mm, ?_, by rw [hs]; rfl⟩
              simp [tokensMatch, htm, hmm]
            · intro ⟨mm, hmm, hs⟩
              cases mm with
              | nil => simp [tokensMatch] at hmm
              | cons c cs =>
                  injection hs with h1 h2
                  subst h1
                  simp only [tokensMatch, Bool.and_eq_true] at hmm
                  exact ⟨cs, hmm.2, h2⟩
          · have htm' : tokMatches t b = false := by
              revert htm
              cases tokMatches t b <;> simp
            simp only [dropToks, if_neg htm]
            constructor
            · intro h; cases h
            · intro ⟨mm, hmm, hs⟩
              cases mm with
              | nil => simp [tokensMatch] at hmm
              | cons c cs =>
                  injection hs with h1 h2
                  subst h1
                  simp [tokensMatch, htm'] at hmm

theorem tokensMatch_lit (m : List Char) :
    ∀ (mm : List Char), tokensMatch (m.map RegexTok.lit) mm = true ↔ mm = m := by
  induction m with
  | nil =>
      intro mm
      cases mm <;> simp [tokensMatch]
  | cons a m ih =>
      intro mm
      cases mm with
      | nil => simp [tokensMatch]
      | cons b mm' =>
          simp only [List.map_cons, tokensMatch, Bool.and_eq_true, tokMatches,
            decide_eq_true_eq, ih, List.cons.injEq]
          constructor
          · intro ⟨h1, h2⟩; exact ⟨h1.symm, h2⟩
          · intro ⟨h1, h2⟩; exact ⟨h1.symm, h2⟩

theorem dropWhile_ws_append (w l : List Char) (hw : ∀ c ∈ w, isPyWs c = true) :
    (w ++ l).dropWhile isPyWs = l.dropWhile isPyWs := by
  induction w with
  | nil => rfl
  | cons c w ih =>
      simp only [List.cons_append, List.dropWhile_cons, hw c (by simp), if_true]
      exact ih (fun x hx => hw x (by simp [hx]))

theorem dropWhile_ws_decomp (l res : List Char) (h : l.dropWhile isPyWs = res) :
    ∃ w, (∀ c ∈ w, isPyWs c = true) ∧ l = w ++ res := by
  refine ⟨l.takeWhile isPyWs, ?_, ?_⟩
  · intro c hc; exact List.mem_takeWhile_imp hc
  · rw [← h, List.takeWhile_append_dropWhile]

/-- Characterization of the declaration matcher: it succeeds with suffix r
exactly when the input decomposes as the word meaning, whitespace, an equals
sign, whitespace, a quote, a character sequence matched by the compiled
meaning tokens, the closing quote, then r.  The closing quote must follow
the matched sequence immediately, so a meaning that is merely a substring of
a longer quoted meaning gives no match. -/
theorem declRest_eq_some (toks : List RegexTok) (s r : List Char) :
    declRest toks s = some r ↔
      ∃ w1 w2 mm, (∀ c ∈ w1, isPyWs c = true) ∧ (∀ c ∈ w2, isPyWs c = true) ∧
        tokensMatch toks mm = true ∧
        s = "meaning".data ++ (w1 ++ '=' :: (w2 ++ '"' :: (mm ++ '"' :: r))) := by
  constructor
  · intro h
    unfold declRest at h
    rw [Option.bind_eq_some] at h
    obtain ⟨s1, hs1, h⟩ := h
    rw [Option.bind_eq_some] at h
    obtain ⟨s2, hs2, h⟩ := h
    rw [Option.bind_eq_some] at h
    obtain ⟨s3, hs3, h⟩ := h
    rw [Option.bind_eq_some] at h
    obtain ⟨s4, hs4, h⟩ := h
    rw [dropLit_eq_some] at hs1
    rw [dropToks_eq_some] at hs4
    obtain ⟨mm, hmm, hs4e⟩ := hs4
    rw [expectChar_eq_some] at hs2 hs3 h
    obtain ⟨w1, hw1, hw1e⟩ := dropWhile_ws_decomp s1 _ hs2
    obtain ⟨w2, hw2, hw2e⟩ := dropWhile_ws_decomp s2 _ hs3
    refine ⟨w1, w2, mm, hw1, hw2, hmm, ?_⟩
    rw [hs1, hw1e, hw2e, hs4e, h]
  · intro ⟨w1, w2, mm, hw1, hw2, hmm, hs⟩
    unfold declRest
    rw [Option.bind_eq_some]
    refine ⟨w1 ++ '=' :: (w2 ++ '"' :: (mm ++ '"' :: r)), (dropLit_eq_some _ _ _).mpr hs, ?_⟩
    rw [Option.bind_eq_some]
    refine ⟨w2 ++ '"' :: (mm ++ '"' :: r), ?_, ?_⟩
    · rw [dropWhile_ws_append w1 _ hw1]
      simp [List.dropWhile_cons, show isPyWs '=' = false from by decide, expectChar]
    · rw [Option.bind_eq_some]
      refine ⟨mm ++ '"' :: r, ?_, ?_⟩
      · rw [dropWhile_ws_append w2 _ hw2]
        simp [List.dropWhile_cons, show isPyWs '"' = false from by decide, expectChar]
      · rw [Option.bind_eq_some]
        refine ⟨'"' :: r, (dropToks_eq_some _ _ _).mpr ⟨mm, hmm, rfl⟩, ?_⟩
        simp [expectChar]

/-- Specification-side reading of the sort_units search: at offset i of the
template corpus stands a whitespace character, the word meaning, optional
whitespace, an equals sign, optional whitespace, the quoted value equal to
the unit meaning exactly, and a whitespace character after the closing
quote. -/
def specMeaningOccurrenceAt (templates meaning : String) (i : Nat) : Prop :=
  ∃ c w1 w2 d rest,
    isPyWs c = true ∧ (∀ x ∈ w1, isPyWs x = true) ∧ (∀ x ∈ w2, isPyWs x = true) ∧
    isPyWs d = true ∧
    templates.data.drop i =
      c :: ("meaning".data ++ (w1 ++ '=' :: (w2 ++ '"' :: (meaning.data ++ '"' :: d :: rest))))

/-- For a pattern compiled from a metacharacter-free meaning (literal tokens
only), a match of the full pattern at offset i is exactly a
specification-side occurrence whose quoted value equals the meaning. -/
theorem matchMeaningAt_iff_spec (t m : String) (i : Nat) :
    matchMeaningAt (m.data.map RegexTok.lit) (t.data.drop i) = true ↔
      specMeaningOccurrenceAt t m i := by
  unfold specMeaningOccurrenceAt
  cases hd : t.data.drop i with
  | nil =>
      simp only [matchMeaningAt, Bool.false_eq_true, false_iff]
      intro ⟨c, w1, w2, d, rest, _, _, _, _, he⟩
      cases he
  | cons c s =>
      simp only [matchMeaningAt, Bool.and_eq_true]
      constructor
      · intro ⟨hc, hrest⟩
        cases hdr : declRest (m.data.map RegexTok.lit) s with
        | none => rw [hdr] at hrest; cases hrest
        | some r =>
          cases r with
          | nil => rw [hdr] at hrest; cases hrest
          | cons d tail =>
            rw [hdr] at hrest
            obtain ⟨w1, w2, mm, hw1, hw2, hmm, hs⟩ :=
              (declRest_eq_some (m.data.map RegexTok.lit) s (d :: tail)).mp hdr
            have hmmm : mm = m.data := (tokensMatch_lit m.data mm).mp hmm
            subst hmmm
            exact ⟨c, w1, w2, d, tail, hc, hw1, hw2, hrest, by rw [hs]⟩
      · intro ⟨c', w1, w2, d, rest, hc, hw1, hw2, hd', he⟩
        injection he with he1 he2
        subst he1
        refine ⟨hc, ?_⟩
        have hdr : declRest (m.data.map RegexTok.lit) s = some (d :: rest) :=
          (declRest_eq_some (m.data.map RegexTok.lit) s (d :: rest)).mpr
            ⟨w1, w2, m.data, hw1, hw2, (tokensMatch_lit m.data m.data).mpr rfl, he2⟩
        rw [hdr]
        exact hd'

theorem searchFrom_eq_some_iff (toks : List RegexTok) :
    ∀ (s : List Char) (i : Nat),
      searchFrom toks s = some i ↔
        (matchMeaningAt toks (s.drop i) = true ∧
          ∀ j, j < i → matchMeaningAt toks (s.drop j) = false) := by
  intro s
  induction s with
  | nil =>
      intro i
      simp [searchFrom, matchMeaningAt]
  | cons c rest ih =>
      intro i
      by_cases hm : matchMeaningAt toks (c :: rest) = true
      · simp only [searchFrom, if_pos hm]
        constructor
        · intro h
          injection h with h
          subst h
          exact ⟨by simpa using hm, fun j hj => absurd hj (Nat.not_lt_zero j)⟩
        · intro ⟨h1, h2⟩
          cases i with
          | zero => rfl
          | succ n =>
              have := h2 0 (Nat.succ_pos n)
              rw [List.drop_zero] at this
              rw [this] at hm
              cases hm
      · have hm' : matchMeaningAt toks (c :: rest) = false := by
          revert hm
          cases matchMeaningAt toks (c :: rest) <;> simp
        simp only [searchFrom, if_neg hm]
        cases i with
        | zero =>
            simp only [List.drop_zero]
            constructor
            · intro h
              rw [Option.map_eq_some'] at h
              obtain ⟨a, _, ha⟩ := h
              cases ha
            · intro ⟨h1, _⟩
              rw [h1] at hm'
              cases hm'
        | succ n =>
            rw [Option.map_eq_some']
            constructor
            · intro ⟨a, ha, han⟩
              have han' : a = n := by omega
              rw [han'] at ha
              obtain ⟨h1, h2⟩ := (ih n).mp ha
              refine ⟨by simpa using h1, ?_⟩
              intro j hj
              cases j with
              | zero => simpa using hm'
              | succ j' =>
                  rw [List.drop_succ_cons]
                  exact h2 j' (by omega)
            · intro ⟨h1, h2⟩
              refine ⟨n, ?_, by omega⟩
              rw [(ih n)]
              refine ⟨by simpa using h1, ?_⟩
              intro j hj
              have := h2 (j + 1) (by omega)
              rw [List.drop_succ_cons] at this
              exact this

theorem searchFrom_eq_none_iff (toks : List RegexTok) :
    ∀ (s : List Char),
      searchFrom toks s = none ↔ ∀ j, matchMeaningAt toks (s.drop j) = false := by
  intro s
  induction s with
  | nil =>
      simp [searchFrom, matchMeaningAt]
  | cons c rest ih =>
      by_cases hm : matchMeaningAt toks (c :: rest) = true
      · simp only [searchFrom, if_pos hm]
        constructor
        · intro h; cases h
        · intro h
          have := h 0
          rw [List.drop_zero, hm] at this
          cases this
      · have hm' : matchMeaningAt toks (c :: rest) = false := by
          revert hm
          cases matchMeaningAt toks (c :: rest) <;> simp
        simp only [searchFrom, if_neg hm, Option.map_eq_none']
        rw [ih]
        constructor
        · intro h j
          cases j with
          | zero => simpa using hm'
          | succ j' => rw [List.drop_succ_cons]; exact h j'
        · intro h j
          have := h (j + 1)
          rw [List.drop_succ_cons] at this
          exact this

/-- The meaning contains no Python regex special character; interpolated
unescaped into the pattern it then denotes itself literally. -/
def regexLiteral (m : String) : Bool :=
  m.data.all (fun c => !(c ∈ pyRegexSpecials))

theorem pyMeaningTokens_of_literal_list (l : List Char)
    (h : l.all (fun c => !(c ∈ pyRegexSpecials)) = true) :
    pyMeaningTokens l = some (l.map RegexTok.lit) := by
  induction l with
  | nil => rfl
  | cons c rest ih =>
      rw [List.all_cons, Bool.and_eq_true] at h
      have hns : ¬(c ∈ pyRegexSpecials) := by simpa using h.1
      have hdot : ¬(c = '.') := fun hceq => hns (by rw [hceq]; decide)
      simp only [pyMeaningTokens, ih h.2, if_neg hdot, if_neg hns, List.map_cons]

theorem pyMeaningTokens_of_literal (m : String) (h : regexLiteral m = true) :
    pyMeaningTokens m.data = some (m.data.map RegexTok.lit) :=
  pyMeaningTokens_of_literal_list m.data h

/-- The search outcome for a metacharacter-free meaning, whose compiled
pattern is the meaning itself taken literally. -/
def reSearchLit (templates m : String) : Option Nat :=
  reSearchMeaning templates (m.data.map RegexTok.lit)

/-- C4 counterexample.  sort_units interpolates the meaning into the regex
unescaped, so the dot in the meaning gre.t stays an active wildcard: the key
function answers offset 0 over a corpus whose quoted value is greet,
although no whitespace-bounded occurrence whose quoted value equals gre.t
exists at offset 0 (or anywhere), contradicting the claimed biconditional
between the key and the exact-occurrence predicate. -/
theorem c4_counterexample :
    regexLiteral "gre.t" = false ∧
    keyFun "tpl" " meaning = \"greet\" x" [("meaning", some "gre.t")] =
      some (.ok 0) ∧
    ¬ specMeaningOccurrenceAt " meaning = \"greet\" x" "gre.t" 0 := by
  refine ⟨by decide, by decide, ?_⟩
  intro hspec
  have h := (matchMeaningAt_iff_spec " meaning = \"greet\" x" "gre.t" 0).mpr hspec
  exact absurd h (by decide)

theorem keyFun_of_literal (templatesRef templates : String) (u : Record)
    (hlit : regexLiteral (fieldStr u "meaning") = true) :
    keyFun templatesRef templates u =
      (match reSearchLit templates (fieldStr u "meaning") with
       | some i => some (.ok i)
       | none =>
           some (.error (.inputError .undefinedMeaning templatesRef
             ("msg definition for meaning not found: " ++ fieldStr u "meaning")))) := by
  unfold keyFun reSearchLit
  rw [pyMeaningTokens_of_literal (fieldStr u "meaning") hlit]

/-- C4 amended.  For a unit whose meaning contains no regex metacharacter,
the sorter key is the character offset of the start of the leftmost
whitespace-bounded occurrence of a meaning assignment whose quoted value
equals the unit meaning exactly: the key function answers offset i exactly
when the occurrence predicate holds at i and at no earlier offset, and a
meaning that is merely a substring of a longer quoted meaning never yields
an occurrence.  For a meaning carrying metacharacters the unescaped
interpolation can make the key designate a non-equal quoted value. -/
theorem c4_sort_key_is_first_exact_occurrence (templatesRef templates : String)
    (u : Record) (i : Nat)
    (hlit : regexLiteral (fieldStr u "meaning") = true) :
    keyFun templatesRef templates u = some (.ok i) ↔
      (specMeaningOccurrenceAt templates (fieldStr u "meaning") i ∧
        ∀ j, j < i → ¬ specMeaningOccurrenceAt templates (fieldStr u "meaning") j) := by
  rw [keyFun_of_literal templatesRef templates u hlit]
  cases h : reSearchLit templates (fieldStr u "meaning") with
  | none =>
      simp only [Option.some.injEq, reduceCtorEq, false_iff]
      unfold reSearchLit reSearchMeaning at h
      have hall := (searchFrom_eq_none_iff _ _).mp h
      intro ⟨hspec, _⟩
      have hmt := (matchMeaningAt_iff_spec templates (fieldStr u "meaning") i).mpr hspec
      rw [hall i] at hmt
      cases hmt
  | some k =>
      unfold reSearchLit reSearchMeaning at h
      obtain ⟨hk1, hk2⟩ := (searchFrom_eq_some_iff _ _ k).mp h
      simp only [Option.some.injEq, Except.ok.injEq]
      constructor
      · intro he
        subst he
        refine ⟨(matchMeaningAt_iff_spec _ _ _).mp hk1, ?_⟩
        intro j hj hspec
        have hmt := (matchMeaningAt_iff_spec _ _ _).mpr hspec
        rw [hk2 j hj] at hmt
        cases hmt
      · intro ⟨hspec, hmin⟩
        rcases Nat.lt_trichotomy i k with hlt | heq | hgt
        · have hmt := (matchMeaningAt_iff_spec _ _ _).mpr hspec
          rw [hk2 i hlt] at hmt
          cases hmt
        · exact heq.symm
        · exact absurd ((matchMeaningAt_iff_spec _ _ _).mp hk1) (hmin k hgt)

theorem c4_sort_key_is_first_exact_occurrence_witness :
    regexLiteral "greet" = true ∧
    keyFun "tpl" " meaning = \"greet\" x" [("meaning", some "greet")] = some (.ok 0) ∧
    specMeaningOccurrenceAt " meaning = \"greet\" x" "greet" 0 :=
  ⟨by decide, by decide,
    ((c4_sort_key_is_first_exact_occurrence "tpl" " meaning = \"greet\" x"
      [("meaning", some "greet")] 0 (by decide)).mp (by decide)).1⟩

theorem declRest_nil_none (toks : List RegexTok) (r : List Char) :
    declRest toks [] = some r → False := by
  intro h
  obtain ⟨w1, w2, mm, _, _, _, hs⟩ := (declRest_eq_some toks [] r).mp h
  exact absurd hs (by simp)

/-- A literal meaning declaration (the pattern body without the surrounding
whitespace requirement, the quoted value equal to the meaning itself) stands
at offset i of the template corpus. -/
def isDeclaredAt (templates meaning : String) (i : Nat) : Prop :=
  (declRest (meaning.data.map RegexTok.lit) (templates.data.drop i)).isSome = true

theorem isDeclaredAt_lt_length (t m : String) (j : Nat) (h : isDeclaredAt t m j) :
    j < t.data.length := by
  by_contra hge
  push_neg at hge
  unfold isDeclaredAt at h
  rw [List.drop_eq_nil_of_le hge] at h
  cases hdr : declRest (m.data.map RegexTok.lit) [] with
  | none => rw [hdr] at h; cases h
  | some r => exact declRest_nil_none (m.data.map RegexTok.lit) r hdr

instance (t m : String) (i : Nat) : Decidable (isDeclaredAt t m i) := by
  unfold isDeclaredAt
  infer_instance

instance (t m : String) (i : Nat) : Decidable (∀ j, isDeclaredAt t m j → j = i) :=
  decidable_of_iff (∀ j, j < t.data.length → isDeclaredAt t m j → j = i)
    ⟨fun h j hj => h j (isDeclaredAt_lt_length t m j hj) hj,
     fun h j _ hj => h j hj⟩

theorem matchMeaningAt_gives_decl (t : String) (toks : List RegexTok) (j : Nat)
    (h : matchMeaningAt toks (t.data.drop j) = true) :
    ∃ d tail, declRest toks (t.data.drop (j + 1)) = some (d :: tail) ∧ isPyWs d = true := by
  cases hd : t.data.drop j with
  | nil => rw [hd] at h; cases h
  | cons c s =>
      have hs : t.data.drop (j + 1) = s := by
        rw [← List.tail_drop, hd]
        rfl
      rw [hd] at h
      simp only [matchMeaningAt, Bool.and_eq_true] at h
      obtain ⟨hc, hrest⟩ := h
      cases hdr : declRest toks s with
      | none => rw [hdr] at hrest; cases hrest
      | some r =>
          cases r with
          | nil => rw [hdr] at hrest; cases hrest
          | cons d tail =>
              rw [hdr] at hrest
              exact ⟨d, tail, by rw [hs, hdr], hrest⟩

theorem sort_units_single_none (templatesRef templates : String) (u : Record)
    (toks : List RegexTok)
    (htoks : pyMeaningTokens (fieldStr u "meaning").data = some toks)
    (h : reSearchMeaning templates toks = none) :
    sort_units templatesRef templates [u] =
      some (.error (.inputError .undefinedMeaning templatesRef
        ("msg definition for meaning not found: " ++ fieldStr u "meaning"))) := by
  simp [sort_units, decorate, keyFun, htoks, h]

/-- C10 counterexample.  The claimed conclusion fails for a meaning carrying
a regex metacharacter: the only literal declaration of a.c stands at offset
0 of the corpus (so the claimed hypotheses hold), yet the unescaped dot
makes the pattern match the later declaration of abc, and sort_units
succeeds instead of raising UndefinedMeaningError. -/
theorem c10_counterexample :
    regexLiteral "a.c" = false ∧
    isDeclaredAt "meaning=\"a.c\" zzz meaning=\"abc\" more" "a.c" 0 ∧
    (∀ j, isDeclaredAt "meaning=\"a.c\" zzz meaning=\"abc\" more" "a.c" j → j = 0) ∧
    sort_units "tpl" "meaning=\"a.c\" zzz meaning=\"abc\" more"
        [[("key", some "k"), ("meaning", some "a.c")]] =
      some (.ok [[("key", some "k"), ("meaning", some "a.c")]]) := by
  refine ⟨by decide, by decide, by decide, ?_⟩
  have hdec : decorate "tpl" "meaning=\"a.c\" zzz meaning=\"abc\" more"
      [[("key", some "k"), ("meaning", some "a.c")]] =
      some (.ok [(17, [("key", some "k"), ("meaning", some "a.c")])]) := rfl
  simp only [sort_units, hdec, List.mergeSort_singleton, List.map_cons, List.map_nil]

/-- C10 amended.  For a metacharacter-free meaning, the search pattern
demands a whitespace character before the word meaning and one after the
closing quote, so a meaning whose only declaration starts at offset 0 of the
corpus, or whose closing quote is the last character of the corpus, is never
found: the search answers none and sort_units raises at the
UndefinedMeaningError site although the meaning is declared in the corpus.
For a meaning carrying metacharacters the pattern can instead match a
different declaration elsewhere. -/
theorem c10_boundary_declaration_not_found (templatesRef templates : String)
    (u : Record) (m : String) (hm : fieldStr u "meaning" = m)
    (hlit : regexLiteral m = true) :
    ((isDeclaredAt templates m 0 ∧ (∀ j, isDeclaredAt templates m j → j = 0)) →
      reSearchLit templates m = none ∧
      sort_units templatesRef templates [u] =
        some (.error (.inputError .undefinedMeaning templatesRef
          ("msg definition for meaning not found: " ++ m))))
    ∧ (∀ i, (declRest (m.data.map RegexTok.lit) (templates.data.drop i) = some [] ∧
        (∀ j, isDeclaredAt templates m j → j = i)) →
      reSearchLit templates m = none ∧
      sort_units templatesRef templates [u] =
        some (.error (.inputError .undefinedMeaning templatesRef
          ("msg definition for meaning not found: " ++ m)))) := by
  subst hm
  have htoks := pyMeaningTokens_of_literal (fieldStr u "meaning") hlit
  constructor
  · intro ⟨h0, honly⟩
    have hnone : reSearchLit templates (fieldStr u "meaning") = none := by
      unfold reSearchLit reSearchMeaning
      rw [searchFrom_eq_none_iff]
      intro j
      by_contra hmt
      have hmt' : matchMeaningAt ((fieldStr u "meaning").data.map RegexTok.lit)
          (templates.data.drop j) = true := by
        revert hmt
        cases matchMeaningAt ((fieldStr u "meaning").data.map RegexTok.lit)
          (templates.data.drop j) <;> simp
      obtain ⟨d, tail, hdr, _⟩ :=
        matchMeaningAt_gives_decl templates ((fieldStr u "meaning").data.map RegexTok.lit)
          j hmt'
      have hj0 : j + 1 = 0 := by
        refine honly (j + 1) ?_
        unfold isDeclaredAt
        rw [hdr]
        rfl
      omega
    exact ⟨hnone, sort_units_single_none _ _ _ _ htoks hnone⟩
  · intro i ⟨hi, honly⟩
    have hnone : reSearchLit templates (fieldStr u "meaning") = none := by
      unfold reSearchLit reSearchMeaning
      rw [searchFrom_eq_none_iff]
      intro j
      by_contra hmt
      have hmt' : matchMeaningAt ((fieldStr u "meaning").data.map RegexTok.lit)
          (templates.data.drop j) = true := by
        revert hmt
        cases matchMeaningAt ((fieldStr u "meaning").data.map RegexTok.lit)
          (templates.data.drop j) <;> simp
      obtain ⟨d, tail, hdr, _⟩ :=
        matchMeaningAt_gives_decl templates ((fieldStr u "meaning").data.map RegexTok.lit)
          j hmt'
      have hji : j + 1 = i := by
        refine honly (j + 1) ?_
        unfold isDeclaredAt
        rw [hdr]
        rfl
      rw [hji, hi] at hdr
      cases hdr
    exact ⟨hnone, sort_units_single_none _ _ _ _ htoks hnone⟩

/-- A validated record whose meaning is greet. -/
def uGreet : Record := [("key", some "k"), ("meaning", some "greet")]

/-- A validated record whose meaning is bye. -/
def uBye : Record := [("key", some "k"), ("meaning", some "bye")]

theorem c10_boundary_declaration_not_found_witness :
    (reSearchLit "meaning=\"greet\" x" "greet" = none ∧
      sort_units "tpl" "meaning=\"greet\" x" [uGreet] =
        some (.error (.inputError .undefinedMeaning "tpl"
          "msg definition for meaning not found: greet"))) ∧
    (reSearchLit "x meaning=\"bye\"" "bye" = none ∧
      sort_units "tpl" "x meaning=\"bye\"" [uBye] =
        some (.error (.inputError .undefinedMeaning "tpl"
          "msg definition for meaning not found: bye"))) :=
  ⟨(c10_boundary_declaration_not_found "tpl" "meaning=\"greet\" x" uGreet "greet" rfl
      (by decide)).1 ⟨by decide, by decide⟩,
   (c10_boundary_declaration_not_found "tpl" "x meaning=\"bye\"" uBye "bye" rfl
      (by decide)).2 2 ⟨by decide, by decide⟩⟩

/-- The first-match offset of a metacharacter-free unit meaning in the
corpus (0 when there is no match; used only where a match is known). -/
def keyOf (templates : String) (u : Record) : Nat :=
  (reSearchLit templates (fieldStr u "meaning")).getD 0

theorem decorate_eq_ok (templatesRef templates : String) (units : List Record)
    (hlit : ∀ u ∈ units, regexLiteral (fieldStr u "meaning") = true)
    (hall : ∀ u ∈ units, (reSearchLit templates (fieldStr u "meaning")).isSome = true) :
    decorate templatesRef templates units =
      some (.ok (units.map (fun u => (keyOf templates u, u)))) := by
  induction units with
  | nil => rfl
  | cons u rest ih =>
      have hu := hall u (by simp)
      have hkl := keyFun_of_literal templatesRef templates u (hlit u (by simp))
      cases hr : reSearchLit templates (fieldStr u "meaning") with
      | none => rw [hr] at hu; cases hu
      | some k =>
          rw [hr] at hkl
          have hrec := ih (fun v hv => hlit v (by simp [hv]))
            (fun v hv => hall v (by simp [hv]))
          simp only [decorate, hkl, hrec, List.map_cons]
          simp [keyOf, hr]

theorem decorate_fails (templatesRef templates : String) (units : List Record)
    (hlit : ∀ u ∈ units, regexLiteral (fieldStr u "meaning") = true)
    (hfail : ∃ u ∈ units, reSearchLit templates (fieldStr u "meaning") = none) :
    ∃ m, decorate templatesRef templates units =
        some (.error (.inputError .undefinedMeaning templatesRef
          ("msg definition for meaning not found: " ++ m))) ∧
      ∃ u ∈ units, fieldStr u "meaning" = m ∧ reSearchLit templates m = none := by
  induction units with
  | nil =>
      obtain ⟨u, hu, _⟩ := hfail
      simp at hu
  | cons u rest ih =>
      have hkl := keyFun_of_literal templatesRef templates u (hlit u (by simp))
      cases hr : reSearchLit templates (fieldStr u "meaning") with
      | none =>
          rw [hr] at hkl
          refine ⟨fieldStr u "meaning", ?_, u, by simp, rfl, hr⟩
          simp [decorate, hkl]
      | some k =>
          rw [hr] at hkl
          obtain ⟨v, hv, hvn⟩ := hfail
          have hvr : v ∈ rest := by
            rcases List.mem_cons.mp hv with h | h
            · subst h; rw [hvn] at hr; cases hr
            · exact h
          obtain ⟨m, hdec, w, hw, hwm, hwn⟩ :=
            ih (fun v hv => hlit v (by simp [hv])) ⟨v, hvr, hvn⟩
          refine ⟨m, ?_, w, by simp [hw], hwm, hwn⟩
          simp [decorate, hkl, hdec]

/-- C5 counterexample.  The meaning gre.t has no matching declaration in the
corpus in the claimed sense (no whitespace-bounded assignment whose quoted
value equals it, at any offset), yet sort_units does not raise
UndefinedMeaningError: the unescaped dot matches the quoted value greet and
the call returns the sorted list. -/
theorem c5_counterexample :
    reSearchLit " meaning = \"greet\" x" "gre.t" = none ∧
    (∀ j, ¬ specMeaningOccurrenceAt " meaning = \"greet\" x" "gre.t" j) ∧
    sort_units "tpl" " meaning = \"greet\" x"
        [[("key", some "k"), ("meaning", some "gre.t")]] =
      some (.ok [[("key", some "k"), ("meaning", some "gre.t")]]) := by
  refine ⟨by decide, ?_, ?_⟩
  · intro j hspec
    have h := (matchMeaningAt_iff_spec " meaning = \"greet\" x" "gre.t" j).mpr hspec
    have hn := (searchFrom_eq_none_iff ("gre.t".data.map RegexTok.lit)
      (" meaning = \"greet\" x").data).mp (by decide) j
    rw [hn] at h
    cases h
  · have hdec : decorate "tpl" " meaning = \"greet\" x"
        [[("key", some "k"), ("meaning", some "gre.t")]] =
        some (.ok [(0, [("key", some "k"), ("meaning", some "gre.t")])]) := rfl
    simp only [sort_units, hdec, List.mergeSort_singleton, List.map_cons, List.map_nil]

/-- C5 amended.  For units whose meanings contain no regex metacharacters:
when every meaning has a match in the corpus, sort_units returns a
permutation of the units that is non-decreasing in the first-match offset
and stable (for every key value, the units carrying it keep their original
relative order); when some meaning has no match, sort_units raises at the
UndefinedMeaningError site instead of placing that unit anywhere.  For a
meaning carrying metacharacters the pattern can match a declaration whose
quoted value differs from the meaning, so the call can succeed although the
meaning has no declaration of its own. -/
theorem c5_sort_sorted_stable_or_abort (templatesRef templates : String)
    (units : List Record)
    (hlit : ∀ u ∈ units, regexLiteral (fieldStr u "meaning") = true) :
    ((∀ u ∈ units, (reSearchLit templates (fieldStr u "meaning")).isSome = true) →
      ∃ out, sort_units templatesRef templates units = some (.ok out) ∧
        out.Perm units ∧
        out.Pairwise (fun a b => keyOf templates a ≤ keyOf templates b) ∧
        ∀ k : Nat, out.filter (fun u => keyOf templates u == k) =
          units.filter (fun u => keyOf templates u == k))
    ∧ ((∃ u ∈ units, reSearchLit templates (fieldStr u "meaning") = none) →
      ∃ m, sort_units templatesRef templates units =
          some (.error (.inputError .undefinedMeaning templatesRef
            ("msg definition for meaning not found: " ++ m))) ∧
        ∃ u ∈ units, fieldStr u "meaning" = m ∧ reSearchLit templates m = none) := by
  constructor
  · intro hall
    have hdec := decorate_eq_ok templatesRef templates units hlit hall
    set pairF : Record → Nat × Record := fun u => (keyOf templates u, u) with hpairF
    set D : List (Nat × Record) := units.map pairF with hD
    set le : Nat × Record → Nat × Record → Bool := fun a b => decide (a.1 ≤ b.1) with hle
    have htrans : ∀ (a b c : Nat × Record), le a b → le b c → le a c := by
      intro a b c hab hbc
      simp only [hle, decide_eq_true_eq] at hab hbc ⊢
      omega
    have htotal : ∀ (a b : Nat × Record), (le a b || le b a) = true := by
      intro a b
      simp only [hle, Bool.or_eq_true, decide_eq_true_eq]
      omega
    set S : List (Nat × Record) := D.mergeSort le with hS
    have hsu : sort_units templatesRef templates units = some (.ok (S.map Prod.snd)) := by
      simp only [sort_units, hdec]
    have hperm : S.Perm D := List.mergeSort_perm D le
    have hsndpair : ∀ (l : List Record), (l.map pairF).map Prod.snd = l := by
      intro l
      induction l with
      | nil => rfl
      | cons x xs ih => simp only [List.map_cons, ih]
    have hDsnd : D.map Prod.snd = units := by
      rw [hD]
      exact hsndpair units
    have hinvD : ∀ p ∈ D, p.1 = keyOf templates p.2 := by
      intro p hp
      rw [hD] at hp
      obtain ⟨u, _, hu⟩ := List.mem_map.mp hp
      rw [← hu]
    have hinvS : ∀ p ∈ S, p.1 = keyOf templates p.2 := by
      intro p hp
      exact hinvD p (hperm.mem_iff.mp hp)
    refine ⟨S.map Prod.snd, hsu, ?_, ?_, ?_⟩
    · have h := hperm.map Prod.snd
      rw [hDsnd] at h
      exact h
    · have hpw : S.Pairwise (fun a b => le a b) := List.sorted_mergeSort htrans htotal D
      rw [List.pairwise_map]
      refine List.Pairwise.imp_of_mem ?_ hpw
      intro a b ha hb hab
      have hab' : a.1 ≤ b.1 := by simpa [hle] using hab
      rw [hinvS a ha, hinvS b hb] at hab'
      exact hab'
    · intro k
      set p : Nat × Record → Bool := fun pr => pr.1 == k with hp
      set c : List (Nat × Record) := D.filter p with hc
      have hcall : ∀ a ∈ c, a.1 = k := by
        intro a ha
        rw [hc] at ha
        have h := (List.mem_filter.mp ha).2
        simpa [hp] using h
      have hcpw : c.Pairwise (fun a b => le a b) := by
        refine List.pairwise_of_forall_mem_list ?_
        intro a ha b hb
        simp only [hle, decide_eq_true_eq]
        rw [hcall a ha, hcall b hb]
      have hcsubD : List.Sublist c D := by
        rw [hc]
        exact List.filter_sublist D
      have hcsub : List.Sublist c S := List.sublist_mergeSort htrans htotal hcpw hcsubD
      have hcfil : c.filter p = c := by
        refine List.filter_eq_self.mpr ?_
        intro a ha
        simp [hp, hcall a ha]
      have hsub2 : List.Sublist c (S.filter p) := by
        rw [← hcfil]
        exact hcsub.filter p
      have hlen : c.length = (S.filter p).length := by
        rw [hc]
        exact ((hperm.filter p).length_eq).symm
      have hceq : c = S.filter p := hsub2.eq_of_length hlen
      have hq : ∀ (l : List (Nat × Record)), (∀ pr ∈ l, pr.1 = keyOf templates pr.2) →
          (l.map Prod.snd).filter (fun u => keyOf templates u == k) =
            (l.filter p).map Prod.snd := by
        intro l hl
        rw [List.filter_map]
        congr 1
        refine List.filter_congr ?_
        intro pr hpr
        simp only [Function.comp_apply, hp]
        rw [hl pr hpr]
      rw [← hDsnd, hq S hinvS, hq D hinvD, ← hceq, ← hc]
  · intro hfail
    obtain ⟨m, hdec, hw⟩ := decorate_fails templatesRef templates units hlit hfail
    refine ⟨m, ?_, hw⟩
    simp [sort_units, hdec]

theorem c5_sort_sorted_stable_or_abort_witness :
    ((∀ u ∈ [recEx1, recEx3], regexLiteral (fieldStr u "meaning") = true) ∧
      (∀ u ∈ [recEx1, recEx3],
        (reSearchLit " meaning=\"farewell\" meaning=\"greet\" "
          (fieldStr u "meaning")).isSome = true) ∧
      ∃ out, sort_units "tpl" " meaning=\"farewell\" meaning=\"greet\" " [recEx1, recEx3] =
          some (.ok out) ∧
        out.Perm [recEx1, recEx3] ∧
        out.Pairwise (fun a b =>
          keyOf " meaning=\"farewell\" meaning=\"greet\" " a ≤
            keyOf " meaning=\"farewell\" meaning=\"greet\" " b) ∧
        ∀ k : Nat,
          out.filter (fun u => keyOf " meaning=\"farewell\" meaning=\"greet\" " u == k) =
            [recEx1, recEx3].filter
              (fun u => keyOf " meaning=\"farewell\" meaning=\"greet\" " u == k)) ∧
    ((∃ u ∈ [recEx1], reSearchLit " x " (fieldStr u "meaning") = none) ∧
      ∃ m, sort_units "tpl" " x " [recEx1] =
          some (.error (.inputError .undefinedMeaning "tpl"
            ("msg definition for meaning not found: " ++ m))) ∧
        ∃ u ∈ [recEx1], fieldStr u "meaning" = m ∧ reSearchLit " x " m = none) :=
  ⟨⟨by decide, by decide,
    (c5_sort_sorted_stable_or_abort "tpl" " meaning=\"farewell\" meaning=\"greet\" "
      [recEx1, recEx3] (by decide)).1 (by decide)⟩,
   ⟨⟨recEx1, by simp, by decide⟩,
    (c5_sort_sorted_stable_or_abort "tpl" " x " [recEx1] (by decide)).2
      ⟨recEx1, by simp, by decide⟩⟩⟩
